import Mathlib

/-!
Verification development for the Threat2PCyA deterministic mapper.

The Python sources under `src/mapper/` are shallowly embedded below:
strings are modelled as `List Char` / `String`, pandas DataFrames as
association-list frames, Python sets as `Finset String`, and fallible
code as `Except String _`.  Character classes follow the ASCII semantics
of the regular expressions in `parsing.py` (the inputs the tool handles
are ASCII CSV/Excel text).
-/

/-- Python regex class `[a-z0-9]` (the complement of `_CLEAN`'s class in
`parsing._CLEAN = re.compile("[^a-z0-9]+")`). -/
def isAlnumLowerC (c : Char) : Bool :=
  (97 ≤ c.toNat && c.toNat ≤ 122) || (48 ≤ c.toNat && c.toNat ≤ 57)

/-- Python whitespace for `\s`, `str.strip()` and `str.split()`:
space and `\t`, `\n`, `\x0b`, `\f`, `\r` (ASCII model). -/
def isSpaceC (c : Char) : Bool :=
  c.toNat = 32 || (9 ≤ c.toNat && c.toNat ≤ 13)

/-- Python regex `\w` (ASCII model): letters, digits, underscore. -/
def isWordC (c : Char) : Bool :=
  (65 ≤ c.toNat && c.toNat ≤ 90) || (97 ≤ c.toNat && c.toNat ≤ 122) ||
  (48 ≤ c.toNat && c.toNat ≤ 57) || c.toNat = 95

/-- `str.lower` on one character (ASCII model of Python's `str.lower`). -/
def pyLowerC (c : Char) : Char :=
  if 65 ≤ c.toNat && c.toNat ≤ 90 then Char.ofNat (c.toNat + 32) else c

/-- `str.upper` on one character (ASCII model of Python's `str.upper`). -/
def pyUpperC (c : Char) : Char :=
  if 97 ≤ c.toNat && c.toNat ≤ 122 then Char.ofNat (c.toNat - 32) else c

def pyLowerL (l : List Char) : List Char := l.map pyLowerC

/-- `str.strip()`: drop leading and trailing whitespace. -/
def pyStripL (l : List Char) : List Char :=
  ((l.dropWhile isSpaceC).reverse.dropWhile isSpaceC).reverse

def pyLowerS (s : String) : String := ⟨pyLowerL s.data⟩
def pyUpperS (s : String) : String := ⟨s.data.map pyUpperC⟩
def pyStripS (s : String) : String := ⟨pyStripL s.data⟩

/-- `_CLEAN.sub(" ", s)`: replace every maximal run of characters outside
`[a-z0-9]` by a single space.  The boolean argument records whether the
previous character belonged to such a run. -/
def cleanSubAux (inRun : Bool) : List Char → List Char
  | [] => []
  | c :: cs =>
    if isAlnumLowerC c then c :: cleanSubAux false cs
    else if inRun then cleanSubAux true cs
    else ' ' :: cleanSubAux true cs

def cleanSub (l : List Char) : List Char := cleanSubAux false l

/-- `str.split()` (no argument): maximal runs of non-whitespace. -/
def splitWsAux (acc : List Char) : List Char → List (List Char)
  | [] => if acc.isEmpty then [] else [acc.reverse]
  | c :: cs =>
    if isSpaceC c then
      if acc.isEmpty then splitWsAux [] cs else acc.reverse :: splitWsAux [] cs
    else splitWsAux (c :: acc) cs

def splitWs (l : List Char) : List (List Char) := splitWsAux [] l

/-- `" ".join(words)` at the character-list level. -/
def joinWords : List (List Char) → List Char
  | [] => []
  | [w] => w
  | w :: ws => w ++ ' ' :: joinWords ws

/-- `parsing._normalize_text`: `s.lower().strip()`, then `_CLEAN.sub(" ", s)`,
then `" ".join(s.split())`. -/
def normalizeTextL (l : List Char) : List Char :=
  joinWords (splitWs (cleanSub (pyStripL (pyLowerL l))))

def normalize_text (s : String) : String := ⟨normalizeTextL s.data⟩

/-- Substring test (`needle in haystack` on Python strings). -/
def containsSubL (hay needle : List Char) : Bool :=
  needle.isPrefixOf hay ||
    match hay with
    | [] => false
    | _ :: t => containsSubL t needle

def containsSub (hay needle : String) : Bool := containsSubL hay.data needle.data

-- Sanity checks of the normalizer on concrete data.
example : normalize_text "  An Attacker -- may STOP!! the flow " =
    "an attacker may stop the flow" := by decide
example : normalize_text "" = "" := by decide
example : containsSub "Threat_Description" "escr" = true := by decide

/-!
## Backtracking regular-expression machinery

The regexes of `parsing.py` are sequences of character-class quantifiers
and (case-insensitive) literals.  A matcher position records the previous
character (for `\b`) and the remaining input.  Quantifier alternatives are
enumerated as lists of candidate positions, in exactly the order in which
Python's backtracking engine tries them (greedy: longest first; lazy:
shortest first); `firstSome` commits to the first alternative whose
continuation succeeds, which is precisely leftmost-backtracking semantics.
-/

structure RxPos where
  prev : Option Char
  rest : List Char
deriving DecidableEq

/-- Positions reachable by consuming `0, 1, …, max` characters of class
`p`, in ascending order of consumption. -/
def runPosAux (p : Char → Bool) (prev : Option Char) : List Char → List RxPos
  | [] => [⟨prev, []⟩]
  | c :: cs =>
    ⟨prev, c :: cs⟩ :: (if p c then runPosAux p (some c) cs else [])

/-- Like `runPosAux` but also returning the consumed characters. -/
def runPosTakAux (p : Char → Bool) (prev : Option Char) (acc : List Char) :
    List Char → List (List Char × RxPos)
  | [] => [(acc.reverse, ⟨prev, []⟩)]
  | c :: cs =>
    (acc.reverse, ⟨prev, c :: cs⟩) ::
      (if p c then runPosTakAux p (some c) (c :: acc) cs else [])

def firstSome : List α → (α → Option β) → Option β
  | [], _ => none
  | a :: as, f => match f a with | some b => some b | none => firstSome as f

/-- Greedy `cls*`: candidates from longest consumption down to zero. -/
def starG (p : Char → Bool) (pos : RxPos) : List RxPos :=
  (runPosAux p pos.prev pos.rest).reverse

/-- Greedy `cls+`: longest consumption down to one. -/
def plusG (p : Char → Bool) (pos : RxPos) : List RxPos :=
  ((runPosAux p pos.prev pos.rest).drop 1).reverse

/-- Lazy `cls+?`: consumption one upwards. -/
def plusL (p : Char → Bool) (pos : RxPos) : List RxPos :=
  (runPosAux p pos.prev pos.rest).drop 1

/-- Greedy `cls+` with the consumed characters captured. -/
def plusGTak (p : Char → Bool) (pos : RxPos) : List (List Char × RxPos) :=
  ((runPosTakAux p pos.prev [] pos.rest).drop 1).reverse

/-- Lazy `cls+?` with the consumed characters captured. -/
def plusLTak (p : Char → Bool) (pos : RxPos) : List (List Char × RxPos) :=
  (runPosTakAux p pos.prev [] pos.rest).drop 1

/-- Case-insensitive literal. -/
def litCI : List Char → RxPos → Option RxPos
  | [], pos => some pos
  | c :: cs, pos =>
    match pos.rest with
    | d :: ds => if pyLowerC d = pyLowerC c then litCI cs ⟨some d, ds⟩ else none
    | [] => none

/-- Case-insensitive literal, capturing the input's own characters. -/
def litCITak : List Char → List Char → RxPos → Option (List Char × RxPos)
  | [], acc, pos => some (acc.reverse, pos)
  | c :: cs, acc, pos =>
    match pos.rest with
    | d :: ds =>
      if pyLowerC d = pyLowerC c then litCITak cs (d :: acc) ⟨some d, ds⟩ else none
    | [] => none

/-- Single character of class `p`. -/
def chCl (p : Char → Bool) (pos : RxPos) : Option RxPos :=
  match pos.rest with
  | d :: ds => if p d then some ⟨some d, ds⟩ else none
  | [] => none

def isWordO : Option Char → Bool
  | some c => isWordC c
  | none => false

/-- The `\b` assertion at a position. -/
def wordB (pos : RxPos) : Bool := isWordO pos.prev != isWordO pos.rest.head?

def isNotColonC (c : Char) : Bool := c ≠ ':'

/-!
## `parsing.py` keys

`_REP_PREFIX = ^\s*[^:]+?\s+to\s+[^:]+?\s*:\s*` (IGNORECASE) and
`_SRC_TGT = ^\s*(?P<src>[^:]+?)\s+to\s+(?P<tgt>[^:]+?)\s*:` (IGNORECASE).
-/

/-- Anchored match of `_REP_PREFIX`, returning the remainder of the input
after the matched prefix (i.e. what `sub("", …)` keeps). -/
def repPrefixCore (l : List Char) : Option (List Char) :=
  firstSome (starG isSpaceC ⟨none, l⟩) fun p1 =>
  firstSome (plusL isNotColonC p1) fun p2 =>
  firstSome (plusG isSpaceC p2) fun p3 =>
  (litCI ['t', 'o'] p3).bind fun p4 =>
  firstSome (plusG isSpaceC p4) fun p5 =>
  firstSome (plusL isNotColonC p5) fun p6 =>
  firstSome (starG isSpaceC p6) fun p7 =>
  (chCl (fun c => c = ':') p7).bind fun p8 =>
  firstSome (starG isSpaceC p8) fun p9 => some p9.rest

/-- `parsing._desc_key_from_report`. -/
def desc_key_from_report (s : String) : String :=
  normalize_text ⟨(repPrefixCore s.data).getD s.data⟩

/-- Anchored match of `_SRC_TGT`, returning the two captures. -/
def srcTgtCore (l : List Char) : Option (List Char × List Char) :=
  firstSome (starG isSpaceC ⟨none, l⟩) fun p1 =>
  firstSome (plusLTak isNotColonC p1) fun st =>
  firstSome (plusG isSpaceC st.2) fun p3 =>
  (litCI ['t', 'o'] p3).bind fun p4 =>
  firstSome (plusG isSpaceC p4) fun p5 =>
  firstSome (plusLTak isNotColonC p5) fun tg =>
  firstSome (starG isSpaceC tg.2) fun p7 =>
  (chCl (fun c => c = ':') p7).map fun _ => (st.1, tg.1)

/-- `parsing.parse_src_tgt_from_report_desc`: `(None, None)` on no match,
else the two stripped captures. -/
def parse_src_tgt_from_report_desc (desc : String) : Option String × Option String :=
  match srcTgtCore desc.data with
  | some (s, t) => (some ⟨pyStripL s⟩, some ⟨pyStripL t⟩)
  | none => (none, none)

def lbraceC : Char := Char.ofNat 123
def rbraceC : Char := Char.ofNat 125

/-- The literal `{source.Name}` (braces spelt via `Char.ofNat`). -/
def srcPlaceholderL : List Char := lbraceC :: ("source.Name".data ++ [rbraceC])

/-- The literal `{target.Name}`. -/
def tgtPlaceholderL : List Char := lbraceC :: ("target.Name".data ++ [rbraceC])

/-- Anchored match of
`_CAND_PREFIX = ^\s*\{source\.Name\}\s+to\s+\{target\.Name\}\s*:\s*`
(IGNORECASE), returning the remainder after the matched prefix. -/
def candPrefixCore (l : List Char) : Option (List Char) :=
  firstSome (starG isSpaceC ⟨none, l⟩) fun p1 =>
  (litCI srcPlaceholderL p1).bind fun p2 =>
  firstSome (plusG isSpaceC p2) fun p3 =>
  (litCI ['t', 'o'] p3).bind fun p4 =>
  firstSome (plusG isSpaceC p4) fun p5 =>
  (litCI tgtPlaceholderL p5).bind fun p6 =>
  firstSome (starG isSpaceC p6) fun p7 =>
  (chCl (fun c => c = ':') p7).bind fun p8 =>
  firstSome (starG isSpaceC p8) fun p9 => some p9.rest

/-- `_PLACEHOLDER.sub("", s)` for `_PLACEHOLDER = \{[^}]+\}`: delete every
brace-delimited non-empty placeholder.  Each step consumes at least one
character, so `l.length` is sufficient fuel. -/
def placeholderSubAux (fuel : Nat) (l : List Char) : List Char :=
  match fuel, l with
  | 0, l => l
  | _, [] => []
  | f + 1, c :: cs =>
    if c = lbraceC then
      let run := cs.takeWhile (fun d => d ≠ rbraceC)
      match run, cs.drop run.length with
      | _ :: _, r :: rs =>
        if r = rbraceC then placeholderSubAux f rs else c :: placeholderSubAux f cs
      | _, _ => c :: placeholderSubAux f cs
    else c :: placeholderSubAux f cs

def placeholderSub (l : List Char) : List Char := placeholderSubAux l.length l

/-- `parsing._desc_key_from_candidate`: strip `_CAND_PREFIX`, remove the
remaining placeholders, normalize. -/
def desc_key_from_candidate (s : String) : String :=
  normalize_text ⟨placeholderSub ((candPrefixCore s.data).getD s.data)⟩

/-- `str.replace(old, new, 1)`: replace the first occurrence only. -/
def replaceFirstL (fuel : Nat) (l old new : List Char) : List Char :=
  match fuel, l with
  | 0, l => l
  | _, [] => []
  | f + 1, c :: cs =>
    if old.isPrefixOf (c :: cs) then new ++ (c :: cs).drop old.length
    else c :: replaceFirstL f cs old new

/-- `parsing._title_key_from_report`: remove the first occurrence of the
source name (when non-empty), then normalize. -/
def title_key_from_report (title source : String) : String :=
  if source ≠ "" then
    normalize_text ⟨replaceFirstL title.data.length title.data source.data []⟩
  else normalize_text title

/-- `parsing._title_key_from_candidate`. -/
def title_key_from_candidate (shortTitle : String) : String :=
  normalize_text shortTitle

-- Concrete checks against the Python behaviour.
example : desc_key_from_report "PLC to HMI: An attacker may impersonate the HMI" =
    "an attacker may impersonate the hmi" := by decide
example : parse_src_tgt_from_report_desc "PLC to HMI: An attacker" =
    (some "PLC", some "HMI") := by decide
example : parse_src_tgt_from_report_desc "no topology here" = (none, none) := by decide
example : desc_key_from_candidate
    ⟨srcPlaceholderL ++ " to ".data ++ tgtPlaceholderL ++ ": Flow may be stopped".data⟩ =
    "flow may be stopped" := by decide

/-!
## IEC identifier grammar (`parsing.IEC_RE`)

`IEC_RE = \b(CR|SAR|EDR|HDR|NDR)[\s\-_]*(\d+(?:\.\d+)?)
(?:\s*R\s*E\s*[\s\-\(]*(\d+)[\s\)]*)?\b` with IGNORECASE.
-/

def isDigitC (c : Char) : Bool := 48 ≤ c.toNat && c.toNat ≤ 57

/-- Class `[\s\-_]` between family and number. -/
def isSepC (c : Char) : Bool := isSpaceC c || c = '-' || c = '_'

/-- Class `[\s\-\(]` before the enhancement number. -/
def isReOpenC (c : Char) : Bool := isSpaceC c || c = '-' || c = '('

/-- Class `[\s\)]` after the enhancement number. -/
def isReCloseC (c : Char) : Bool := isSpaceC c || c = ')'

/-- `parsing.FAMILIES`, in the regex's alternation order. -/
def famAlts : List (List Char) :=
  ["CR".data, "SAR".data, "EDR".data, "HDR".data, "NDR".data]

def chClCI (c : Char) (pos : RxPos) : Option RxPos :=
  chCl (fun d => pyLowerC d = c) pos

/-- Candidates for the optional fraction `(?:\.\d+)?` (greedy: with the
fraction, longest digit run first; then without), each with the consumed
characters. -/
def fracCands (p : RxPos) : List (List Char × RxPos) :=
  (match chCl (fun c => c = '.') p with
   | some p2 => (plusGTak isDigitC p2).map fun dp => ('.' :: dp.1, dp.2)
   | none => []) ++ [([], p)]

/-- Candidates for the optional enhancement group
`(?:\s*R\s*E\s*[\s\-\(]*(\d+)[\s\)]*)?` (greedy: group first, all of its
internal backtracking alternatives in engine order; then skipping it). -/
def reCands (p : RxPos) : List (Option (List Char) × RxPos) :=
  ((starG isSpaceC p).flatMap fun p1 =>
    match chClCI 'r' p1 with
    | none => []
    | some p2 =>
      (starG isSpaceC p2).flatMap fun p3 =>
        match chClCI 'e' p3 with
        | none => []
        | some p4 =>
          (starG isSpaceC p4).flatMap fun p5 =>
            (starG isReOpenC p5).flatMap fun p6 =>
              (plusGTak isDigitC p6).flatMap fun rp =>
                (starG isReCloseC rp.2).map fun p8 => (some rp.1, p8))
  ++ [(none, p)]

/-- Canonical token text, as built at `parsing.py:84-86`:
`f"{fam} {num}"` plus `f" RE({ren})"` when the enhancement matched. -/
def mkIecTok (famTxt num : List Char) (ren : Option (List Char)) : List Char :=
  famTxt.map pyUpperC ++ ' ' :: num ++
    (match ren with
     | some r => " RE(".data ++ r ++ [')']
     | none => [])

/-- One attempted `IEC_RE` match anchored at `pos`, in exact backtracking
order; returns the canonical token and the position after the match. -/
def iecAt (pos : RxPos) : Option (List Char × RxPos) :=
  if wordB pos then
    firstSome famAlts fun fam =>
      (litCITak fam [] pos).bind fun fp =>
        firstSome (starG isSepC fp.2) fun p2 =>
          firstSome (plusGTak isDigitC p2) fun dp =>
            firstSome (fracCands dp.2) fun frp =>
              firstSome (reCands frp.2) fun rp =>
                if wordB rp.2 then some (mkIecTok fp.1 (dp.1 ++ frp.1) rp.1, rp.2)
                else none
  else none

/-- `IEC_RE.finditer`: scan left to right, non-overlapping, resuming after
each match.  Every step consumes at least one character, so the remaining
length is sufficient fuel. -/
def iecFinditerAux (fuel : Nat) (pos : RxPos) : List (List Char) :=
  match fuel with
  | 0 => []
  | f + 1 =>
    match pos.rest with
    | [] => []
    | c :: cs =>
      match iecAt pos with
      | some (tok, p2) => tok :: iecFinditerAux f p2
      | none => iecFinditerAux f ⟨some c, cs⟩

def iecFinditer (l : List Char) : List (List Char) :=
  iecFinditerAux l.length ⟨none, l⟩

/-- `IEC_RE.search`: the leftmost match, if any. -/
def iecSearchAux (fuel : Nat) (pos : RxPos) : Option (List Char) :=
  match fuel with
  | 0 => none
  | f + 1 =>
    match iecAt pos with
    | some (tok, _) => some tok
    | none =>
      match pos.rest with
      | [] => none
      | c :: cs => iecSearchAux f ⟨some c, cs⟩

def iecSearch (l : List Char) : Option (List Char) :=
  iecSearchAux (l.length + 1) ⟨none, l⟩

/-- `re.split(r"(?i)\band\b|[;,/]", s)`: split at each standalone `and`
(word-bounded, case-insensitive) and at each `;`, `,`, `/`. -/
def splitSepsAux (fuel : Nat) (pos : RxPos) (acc : List Char) : List (List Char) :=
  match fuel with
  | 0 => [acc.reverse]
  | f + 1 =>
    match pos.rest with
    | [] => [acc.reverse]
    | c :: cs =>
      match (if wordB pos then
               (litCI ['a', 'n', 'd'] pos).bind fun p2 =>
                 if wordB p2 then some p2 else none
             else none) with
      | some p2 => acc.reverse :: splitSepsAux f p2 []
      | none =>
        if c = ';' || c = ',' || c = '/' then
          acc.reverse :: splitSepsAux f ⟨some c, cs⟩ []
        else splitSepsAux f ⟨some c, cs⟩ (c :: acc)

def splitSeps (l : List Char) : List (List Char) :=
  splitSepsAux l.length ⟨none, l⟩ []

/-- Order-preserving dedup keeping non-empty entries, as at
`parsing.py:99-103` (`if x and x not in seen`). -/
def uniqNonemptyAux (seen : List String) : List String → List String
  | [] => []
  | x :: xs =>
    if x ≠ "" && !seen.contains x then x :: uniqNonemptyAux (x :: seen) xs
    else uniqNonemptyAux seen xs

def uniqNonempty (l : List String) : List String := uniqNonemptyAux [] l

/-- `parsing.extract_all_iec_ids`: replace NBSP by space, collect the
whole-string `finditer` pass, then the split-and-search pass, then dedup
preserving first-seen order. -/
def extract_all_iec_ids (text : String) : List String :=
  let s := text.data.map fun c => if c.toNat = 160 then ' ' else c
  let pass1 := iecFinditer s
  let pass2 := (splitSeps s).filterMap fun part => iecSearch (pyStripL part)
  uniqNonempty ((pass1 ++ pass2).map String.mk)

-- Concrete checks against Python's behaviour.
example : extract_all_iec_ids "CR 3.1" = ["CR 3.1"] := by decide
example : extract_all_iec_ids "cr-3.1" = ["CR 3.1"] := by decide
example : extract_all_iec_ids "HDR 2 RE(1)" = ["HDR 2 RE(1)"] := by decide
example : extract_all_iec_ids "hdr2 re (1)" = ["HDR 2 RE(1)"] := by decide
example : extract_all_iec_ids "CR 1.1 and CR 1.2 RE(1)" = ["CR 1.1", "CR 1.2 RE(1)"] := by
  decide
example : extract_all_iec_ids "nothing to see" = [] := by decide

/-!
## Tabular frames

A pandas DataFrame of strings is modelled as an ordered column list plus
rows of ordered association lists.  A cell value of `none` models Python
`None` (all cells read from CSV/Excel are strings after
`dtype=str` + `fillna("")`; `None` only appears in the `_Src`/`_Tgt`
columns the pipeline itself adds).
-/

abbrev Cell := Option String

abbrev FrameRow := List (String × Cell)

structure Frame where
  cols : List String
  rows : List FrameRow
deriving DecidableEq

/-- Cell lookup coerced to `str` as the Python code does on access paths
that stringify (`str(row[col])`, `.get(col, "")`): a missing column gives
`""` and a `None` cell gives `"None"` (Python `str(None)`). -/
def getCellStr (r : FrameRow) (col : String) : String :=
  match r.find? (fun kv => kv.1 = col) with
  | some (_, some v) => v
  | some (_, none) => "None"
  | none => ""

/-- Cell lookup keeping the raw optional value (missing column → `""`). -/
def getCellOpt (r : FrameRow) (col : String) : Option String :=
  match r.find? (fun kv => kv.1 = col) with
  | some (_, v) => v
  | none => some ""

/-- `df[col] = …` on one row: pandas replaces an existing column's value,
otherwise appends the new column. -/
def setCellRow (r : FrameRow) (col : String) (v : Cell) : FrameRow :=
  if r.any fun kv => kv.1 = col then
    r.map fun kv => if kv.1 = col then (col, v) else kv
  else r ++ [(col, v)]

/-- `df[col] = …` on a frame, with a per-row value. -/
def frameSetCol (f : Frame) (col : String) (vf : FrameRow → Cell) : Frame :=
  { cols := if f.cols.contains col then f.cols else f.cols ++ [col]
    rows := f.rows.map fun r => setCellRow r col (vf r) }

/-- `csv_rules.load_rules`: require `Threat_Description`, derive
`_desc_key` per row, and `_title_key` per row when `Threat_ShortTitle`
exists (otherwise the whole column defaults to the scalar `""`). -/
def load_rules (df : Frame) : Except String Frame :=
  if df.cols.contains "Threat_Description" then
    Except.ok
      (frameSetCol
        (frameSetCol df "_desc_key" fun r =>
          some (desc_key_from_candidate (getCellStr r "Threat_Description")))
        "_title_key" fun r =>
          some (if df.cols.contains "Threat_ShortTitle" then
                  title_key_from_candidate (getCellStr r "Threat_ShortTitle")
                else ""))
  else Except.error "Candidates CSV must have a 'Threat_Description' column."

/-!
## Assurance-level expander (`pipeline._cascade_candidate_iec`,
`pipeline._collect_candidate_iec`)
-/

/-- Order-preserving dedup, as at `pipeline.py:77-80` and `106-110`
(`if x not in seen`). -/
def stableUniqAux (seen : List String) : List String → List String
  | [] => []
  | x :: xs =>
    if seen.contains x then stableUniqAux seen xs
    else x :: stableUniqAux (x :: seen) xs

def stableUniq (l : List String) : List String := stableUniqAux [] l

/-- `tok.split()[0]`: the first whitespace-separated word (the family of a
canonical token). -/
def famOfTok (tok : String) : String :=
  match splitWs tok.data with
  | w :: _ => ⟨w⟩
  | [] => ""

/-- The first key of the row whose stripped upper-case form starts with
`"SL<sl>"` (`pipeline.py:62-66` / `92-96`). -/
def findSlCol (row : FrameRow) (sl : Nat) : Option String :=
  (row.find? fun kv =>
    (("SL" ++ toString sl).data).isPrefixOf (pyUpperS (pyStripS kv.1)).data).map (·.1)

/-- The token contributions of one assurance level of a candidate row:
locate the `SL<sl>` column, skip empty cells and the two literal
sentinels, extract tokens, keep allowed families
(`pipeline.py:62-75` / `92-105`). -/
def slTokens (row : FrameRow) (sl : Nat) (allowed : List String) : List String :=
  match findSlCol row sl with
  | none => []
  | some col =>
    let cell := pyStripS (getCellStr row col)
    if cell = "" || pyLowerS cell = "not applicable" || pyLowerS cell = "check manually" then []
    else (extract_all_iec_ids cell).filter fun tok => allowed.contains (famOfTok tok)

/-- `pipeline._cascade_candidate_iec`: union of the `SL1..SL<target>`
cells, stable-deduplicated. -/
def cascade_candidate_iec (row : FrameRow) (target_sl : Nat) (allowed : List String) :
    List String :=
  stableUniq ((List.range' 1 target_sl).flatMap fun sl => slTokens row sl allowed)

/-- `pipeline._collect_candidate_iec`: `SL1..SL<target>` in `cascade`
mode, only `SL<target>` otherwise (the code treats every non-`cascade`
mode string as `exact`). -/
def collect_candidate_iec (row : FrameRow) (target_sl : Nat) (allowed : List String)
    (mode : String) : List String :=
  stableUniq
    (((if mode = "cascade" then List.range' 1 target_sl else [target_sl]).flatMap
      fun sl => slTokens row sl allowed))

-- Concrete checks of the expander.
example :
    cascade_candidate_iec
      [("SL1", some "CR 1.1"), ("SL2", some "CR 1.1 and CR 1.2 RE(1)")] 2
      ["CR", "SAR", "EDR", "HDR", "NDR"] = ["CR 1.1", "CR 1.2 RE(1)"] := by decide
example :
    collect_candidate_iec
      [("SL1", some "CR 1.1"), ("SL2", some "CR 1.2 RE(1)")] 2
      ["CR", "SAR", "EDR", "HDR", "NDR"] "exact" = ["CR 1.2 RE(1)"] := by decide
example :
    cascade_candidate_iec [("SL1", some "not applicable"), ("SL2 (high)", some "EDR 3")] 2
      ["CR", "EDR"] = ["EDR 3"] := by decide
example :
    cascade_candidate_iec [("SL1", some "CR 1.1; SAR 2")] 1 ["SAR"] = ["SAR 2"] := by decide

/-!
## Asset helpers (`pipeline.py` lines 130-222)
-/

/-- `_ASSET_SPLIT = re.compile("[;,/|]")`: split at each separator char. -/
def splitAssetAux (acc : List Char) : List Char → List (List Char)
  | [] => [acc.reverse]
  | c :: cs =>
    if c = ';' || c = ',' || c = '/' || c = '|' then
      acc.reverse :: splitAssetAux [] cs
    else splitAssetAux (c :: acc) cs

/-- `pipeline._canon_asset_set`: split, strip parts, drop empties,
casefold (ASCII lower) into a set. -/
def canon_asset_set (s : String) : Finset String :=
  (((splitAssetAux [] s.data).map fun p => pyStripL p).filter
      (fun p => ¬p.isEmpty)).toFinset.image fun p => pyLowerS ⟨p⟩

/-- Python truthiness of an optional string (`if src:`): `None` and `""`
are falsy. -/
def pyTruthyOptStr : Option String → Bool
  | none => false
  | some s => s ≠ ""

/-- `str.replace(old, new)`: replace every occurrence (left to right). -/
def replaceAllL (fuel : Nat) (l old new : List Char) : List Char :=
  match fuel, l with
  | 0, l => l
  | _, [] => []
  | f + 1, c :: cs =>
    if old ≠ [] && old.isPrefixOf (c :: cs) then
      new ++ replaceAllL f ((c :: cs).drop old.length) old new
    else c :: replaceAllL f cs old new

def replaceAllS (s old new : String) : String :=
  ⟨replaceAllL s.data.length s.data old.data new.data⟩

/-- `pipeline._resolve_candidate_allocation`: substitute the
`{source.Name}` / `{target.Name}` placeholders (only when the name is
truthy) and canonicalize. -/
def resolve_candidate_allocation (s : String) (src tgt : Option String) : Finset String :=
  if s = "" then ∅
  else
    let s1 := if pyTruthyOptStr src then replaceAllS s ⟨srcPlaceholderL⟩ (src.getD "") else s
    let s2 := if pyTruthyOptStr tgt then replaceAllS s1 ⟨tgtPlaceholderL⟩ (tgt.getD "") else s1
    canon_asset_set s2

/-- `pipeline._passes_asset_policy`: fail if required threat assets and
PCyA assets are both non-empty yet disjoint; fail if a non-empty resolved
candidate allocation is not a subset of the PCyA assets; else pass. -/
def passes_asset_policy (threat_assets pcya_assets cand_alloc : Finset String) : Bool :=
  if threat_assets ≠ ∅ && pcya_assets ≠ ∅ && decide (threat_assets ∩ pcya_assets = ∅) then
    false
  else if cand_alloc ≠ ∅ && !decide (cand_alloc ⊆ pcya_assets) then false
  else true

/-- `pipeline._mitigation_side_for_category`: category → side fallback. -/
def mitigation_side_for_category (cat : String) : String :=
  let c := pyLowerS (pyStripS cat)
  if containsSub c "tamper" || c = "t" then "target"
  else if containsSub c "spoof" || c = "s" then "both"
  else if containsSub c "elevation" || containsSub c "imperson" then "both"
  else if containsSub c "information disclosure" || c = "i" then "target"
  else if containsSub c "denial of service" || containsSub c "dos" || c = "d" then "target"
  else if containsSub c "repudiation" || c = "r" then "source"
  else "both"

/-- `pipeline._required_assets_for_threat`: explicit candidate allocation
when present (narrowed to the threat's own src/tgt, else its overlap with
the threat assets, else the full threat asset set); otherwise the
category-based side policy. -/
def required_assets_for_threat (src tgt : Option String) (threat_assets : Finset String)
    (cand_row : FrameRow) : Finset String :=
  let src_c := pyLowerS (src.getD "")
  let tgt_c := pyLowerS (tgt.getD "")
  let cand_alloc := resolve_candidate_allocation (getCellStr cand_row "PCyA allocated to") src tgt
  if cand_alloc ≠ ∅ then
    let sides : Finset String :=
      (if src_c ≠ "" && decide (src_c ∈ cand_alloc) then {src_c} else ∅) ∪
      (if tgt_c ≠ "" && decide (tgt_c ∈ cand_alloc) then {tgt_c} else ∅)
    if sides ≠ ∅ then sides
    else
      let inter := threat_assets ∩ cand_alloc
      if inter ≠ ∅ then inter else threat_assets
  else
    match mitigation_side_for_category (getCellStr cand_row "Threat_Category") with
    | "target" => {tgt_c} \ {""}
    | "source" => {src_c} \ {""}
    | _ => threat_assets

-- Concrete checks of the asset helpers.
example : canon_asset_set " PLC ;HMI / ; plc " = {"plc", "hmi"} := by decide
example : passes_asset_policy {"hmi"} {"hmi", "plc"} ∅ = true := by decide
example : passes_asset_policy {"hmi"} {"plc"} ∅ = false := by decide
example : passes_asset_policy ∅ {"plc"} {"hmi"} = false := by decide
example : passes_asset_policy ∅ ∅ ∅ = true := by decide
example : mitigation_side_for_category "Spoofing" = "both" := by decide
example : mitigation_side_for_category " Repudiation " = "source" := by decide
example : mitigation_side_for_category "Denial Of Service" = "target" := by decide
example : mitigation_side_for_category "weird" = "both" := by decide
example :
    resolve_candidate_allocation ⟨srcPlaceholderL ++ "; HMI".data⟩ (some "PLC") (some "HMI") =
      {"plc", "hmi"} := by decide
example :
    required_assets_for_threat (some "PLC") (some "HMI") {"plc", "hmi"}
      [("Threat_Category", some "Tampering")] = {"hmi"} := by decide

/-!
## Per-threat mapping loop (`pipeline.run_pipeline`, lines 330-441)

`PcyaRow` is one row of the requirement matrix after column resolution:
the raw requirement-ID cell, the raw trace-text cell (`TIS Source` by
default) and the raw allocated-assets cell.  Python sets are modelled by
`Finset String`; for the `"; ".join(sorted(...))` output fields the
underlying collection is kept as a list and sorted with an executable
lexicographic insertion sort (Python's `sorted` on distinct strings).
-/

structure PcyaRow where
  rid : String
  iec : String
  assets : String
deriving DecidableEq

/-- Lexicographic code-point comparison of strings (Python `<=`). -/
def lexLeL : List Char → List Char → Bool
  | [], _ => true
  | _ :: _, [] => false
  | a :: as, b :: bs =>
    if a.toNat < b.toNat then true
    else if b.toNat < a.toNat then false
    else lexLeL as bs

def insertSorted (x : String) : List String → List String
  | [] => [x]
  | y :: ys => if lexLeL x.data y.data then x :: y :: ys else y :: insertSorted x ys

def sortStrings (l : List String) : List String := l.foldr insertSorted []

/-- `"; ".join(sorted(s))` where `s` is the set of the list's elements. -/
def sortJoin (l : List String) : String :=
  String.intercalate "; " (sortStrings (stableUniq l))

/-- `pipeline._rids_for_exact_iec`, as the list of hits in row order: the
stripped, non-empty requirement IDs of rows whose trace text contains the
exact wanted token. -/
def ridsForExactList (pcya : List PcyaRow) (exact_iec : String) : List String :=
  (pcya.filter fun row =>
      pyStripS row.rid ≠ "" &&
        (extract_all_iec_ids row.iec).contains (pyStripS exact_iec)).map
    fun row => pyStripS row.rid

/-- `pipeline._rids_for_exact_iec` as the set it returns. -/
def rids_for_exact_iec (pcya : List PcyaRow) (exact_iec : String) : Finset String :=
  (ridsForExactList pcya exact_iec).toFinset

/-- The assets cell fetched for a requirement ID at `pipeline.py:394-397`:
the first row whose RAW id cell equals the (stripped) id, else `""`. -/
def pcyaAssetsForRid (pcya : List PcyaRow) (rid : String) : Finset String :=
  canon_asset_set (((pcya.find? fun row => row.rid = rid).map (·.assets)).getD "")

/-- The asset gate applied to one traceable requirement ID inside the
loop (`pipeline.py:392-413`): its PCyA assets are fetched per RID while
the required threat assets and the candidate allocation are fixed for the
whole threat. -/
def gateForRid (pcya : List PcyaRow) (required_threat_assets cand_alloc : Finset String)
    (rid : String) : Bool :=
  passes_asset_policy required_threat_assets (pcyaAssetsForRid pcya rid) cand_alloc

/-- `traceable_rids_all` accumulated over the required tokens
(`pipeline.py:383-389`), as a list in accumulation order. -/
def traceableListOf (pcya : List PcyaRow) (req_uni : List String) : List String :=
  req_uni.flatMap fun iec => ridsForExactList pcya iec

/-- The set `traceable_rids_all`. -/
def traceableOf (pcya : List PcyaRow) (req_uni : List String) : Finset String :=
  (traceableListOf pcya req_uni).toFinset

/-- `matched_rids` accumulated over the required tokens: the traceable
ids of each token that pass the asset gate (`pipeline.py:386-413`). -/
def matchedListOf (pcya : List PcyaRow) (req_uni : List String)
    (required_threat_assets cand_alloc : Finset String) : List String :=
  req_uni.flatMap fun iec =>
    (ridsForExactList pcya iec).filter fun rid =>
      gateForRid pcya required_threat_assets cand_alloc rid

/-- The set `matched_rids`. -/
def matchedOf (pcya : List PcyaRow) (req_uni : List String)
    (required_threat_assets cand_alloc : Finset String) : Finset String :=
  (matchedListOf pcya req_uni required_threat_assets cand_alloc).toFinset

/-- `stray_rids = matched_rids - traceable_rids_all` (`pipeline.py:427`). -/
def strayOf (pcya : List PcyaRow) (req_uni : List String)
    (required_threat_assets cand_alloc : Finset String) : Finset String :=
  matchedOf pcya req_uni required_threat_assets cand_alloc \ traceableOf pcya req_uni

/-- The status ladder of `pipeline.py:417-424`, a function of
`matched_rids`, `traceable_rids_all` and `req_uni` only. -/
def statusOf (matched traceable : Finset String) (req_uni : List String) : String :=
  if matched ≠ ∅ then "Mitigated"
  else if traceable ≠ ∅ then "Partially satisfied"
  else if req_uni ≠ [] then "Not mitigated"
  else "Not applicable"

/-- The context of one threat row inside the loop: the values the loop
reads from `threats.loc[t_idx]`. -/
structure ThreatCtx where
  tid : String
  title : String
  desc : String
  sourceCol : String
  srcO : Option String
  tgtO : Option String
deriving DecidableEq

/-- `_ThreatAssets` (`pipeline.py:297-300`):
`{str(_Src).casefold(), str(_Tgt).casefold()} - {""}` — note that
`str(None)` is `"None"`, so a row whose description had no topology shape
contributes the literal asset `"none"`. -/
def threatAssetsOf (srcO tgtO : Option String) : Finset String :=
  ({pyLowerS (srcO.getD "None"), pyLowerS (tgtO.getD "None")} : Finset String) \ {""}

/-- One output row (`pipeline.py:429-441`).  `src` and `tgt` hold the raw
`_Src`/`_Tgt` values, which are Python `None` when the description had no
topology shape. -/
structure OutputRow where
  threatId : String
  threatTitle : String
  threatDesc : String
  sourceCol : String
  src : Option String
  tgt : Option String
  traceableRIDs : String
  mappedRIDs : String
  strayRIDs : String
  status : String
  missingIEC : String
deriving DecidableEq

/-- The required tokens of a threat: concatenation of
`_cascade_candidate_iec` over all matching candidate rows, then stable
dedup (`pipeline.py:342-352`). -/
def requiredIecOf (candRows : List FrameRow) (target_sl : Nat) (allowed : List String) :
    List String :=
  stableUniq (candRows.flatMap fun r => cascade_candidate_iec r target_sl allowed)

/-- The body of the per-threat loop (`pipeline.py:337-441`) for one
threat with its matching candidate rows. -/
def processThreat (pcya : List PcyaRow) (candRows : List FrameRow) (t : ThreatCtx)
    (target_sl : Nat) (allowed : List String) : OutputRow :=
  let req_uni := requiredIecOf candRows target_sl allowed
  let threat_assets := threatAssetsOf t.srcO t.tgtO
  let first_cand := candRows.headD []
  let required_threat_assets :=
    required_assets_for_threat t.srcO t.tgtO threat_assets first_cand
  let cand_alloc :=
    resolve_candidate_allocation (getCellStr first_cand "PCyA allocated to") t.srcO t.tgtO
  let traceableL := traceableListOf pcya req_uni
  let matchedL := matchedListOf pcya req_uni required_threat_assets cand_alloc
  let strayL := matchedL.filter fun rid => !traceableL.contains rid
  let missing := req_uni.filter fun iec => ridsForExactList pcya iec = []
  { threatId := t.tid
    threatTitle := t.title
    threatDesc := t.desc
    sourceCol := t.sourceCol
    src := t.srcO
    tgt := t.tgtO
    traceableRIDs := sortJoin traceableL
    mappedRIDs := sortJoin matchedL
    strayRIDs := sortJoin strayL
    status := statusOf matchedL.toFinset traceableL.toFinset req_uni
    missingIEC := sortJoin missing }

-- A concrete end-to-end check of the loop body (spec §8 scenario).
example :
    (processThreat
      [⟨"REQ-010", "CR 1.1", "HMI"⟩]
      [[("Threat_Description", some "x"),
        ("SL2", some "CR 1.1 and CR 1.2 RE(1)")]]
      ⟨"0", "Spoofing of HMI", "PLC to HMI: An attacker may impersonate the HMI", "",
        some "PLC", some "HMI"⟩
      2 ["CR", "SAR", "EDR", "HDR", "NDR"]).status = "Mitigated" := by decide
example :
    (processThreat
      [⟨"REQ-010", "CR 1.1", "HMI"⟩]
      [[("Threat_Description", some "x"),
        ("SL2", some "CR 1.1 and CR 1.2 RE(1)")]]
      ⟨"0", "t", "PLC to HMI: x", "", some "PLC", some "HMI"⟩
      2 ["CR", "SAR", "EDR", "HDR", "NDR"]).missingIEC = "CR 1.2 RE(1)" := by decide
example :
    (processThreat
      [⟨"REQ-010", "CR 1.1", "PLC"⟩, ⟨"REQ-002", "CR 1.1 RE(9); CR 1.1", "HMI"⟩]
      [[("Threat_Category", some "Tampering"), ("SL1", some "CR 1.1")]]
      ⟨"1", "t", "PLC to HMI: y", "", some "PLC", some "HMI"⟩
      1 ["CR"]).traceableRIDs = "REQ-002; REQ-010" := by decide
example :
    (processThreat
      [⟨"REQ-010", "CR 1.1", "PLC"⟩, ⟨"REQ-002", "CR 1.1 RE(9); CR 1.1", "HMI"⟩]
      [[("Threat_Category", some "Tampering"), ("SL1", some "CR 1.1")]]
      ⟨"1", "t", "PLC to HMI: y", "", some "PLC", some "HMI"⟩
      1 ["CR"]).mappedRIDs = "REQ-002" := by decide

/-!
## `run_pipeline` control flow (`pipeline.py:226-295` and wiring)

Inputs are modelled as already-read string frames (`_read_csv` /
`_read_excel` return a copy unchanged when handed a DataFrame).  The
decisive fact for the success path is line 284,
`from .parsing import _desc_key_from_report_with_assets, _title_key_from_report`:
`parsing.py` defines no attribute named
`_desc_key_from_report_with_assets`, so this statement raises
`ImportError` on every execution that reaches it.
-/

/-- The module-level names actually defined by `parsing.py`. -/
def parsingDefinedNames : List String :=
  ["_CLEAN", "_CAND_PREFIX", "_REP_PREFIX", "_PLACEHOLDER",
   "_normalize_text", "_desc_key_from_candidate", "_desc_key_from_report",
   "_title_key_from_report", "_title_key_from_candidate",
   "FAMILIES", "_NUM", "IEC_RE", "normalize_iec_id", "extract_all_iec_ids",
   "_SRC_TGT", "parse_src_tgt_from_report_desc"]

/-- The `parsing` module attribute `_desc_key_from_report_with_assets`:
no definition with this name exists in `parsing.py` (see
`parsingDefinedNames`), so the attribute is absent. -/
def parsingAttrDescKeyWithAssets : Option (String → Option String → Option String → String) :=
  none

/-- `pipeline.py:284`: importing the two names from `mapper.parsing`; the
first one is missing, so the import raises. -/
def importDescKeyWithAssets :
    Except String (String → Option String → Option String → String) :=
  match parsingAttrDescKeyWithAssets with
  | some f => Except.ok f
  | none =>
    Except.error
      "ImportError: cannot import name '_desc_key_from_report_with_assets' from 'mapper.parsing'"

def renameCol (f : Frame) (old new : String) : Frame :=
  { cols := f.cols.map fun c => if c = old then new else c
    rows := f.rows.map fun r => r.map fun kv => if kv.1 = old then (new, kv.2) else kv }

def addCol (f : Frame) (col : String) (v : Cell) : Frame :=
  { cols := f.cols ++ [col], rows := f.rows.map fun r => r ++ [(col, v)] }

/-- TMT column normalization (`pipeline.py:259-272`): fix up `Title`,
locate and rename the description column (first column whose lower-case
name contains `"description"`), require it, fix up `Source`. -/
def tmtNormalize (f : Frame) : Except String Frame :=
  let f1 :=
    if f.cols.contains "Title" then f
    else
      match f.cols.find? fun c => pyLowerS c = "title" with
      | some g => renameCol f g "Title"
      | none => addCol f "Title" (some "")
  let f2 :=
    match f1.cols.find? fun c => containsSub (pyLowerS c) "description" with
    | some d => if d ≠ "Description" then renameCol f1 d "Description" else f1
    | none => f1
  if ¬f2.cols.contains "Description" then
    Except.error "TMT CSV must include a 'Description' column."
  else
    Except.ok
      (if f2.cols.contains "Source" then f2
       else
         match f2.cols.find? fun c => pyLowerS c = "source" with
         | some g => renameCol f2 g "Source"
         | none => addCol f2 "Source" (some ""))

/-- `pipeline.py:277-281`: the parsed `(src, tgt)` pair for one
description.  The code is `parse_src_tgt_from_report_desc(s) or ("", "")`
— but a two-element tuple is ALWAYS truthy in Python, even `(None, None)`,
so the `("", "")` default is dead and the `None`s flow through. -/
def pyTruthyPair (_ : Option String × Option String) : Bool := true

def srcTgtCell (desc : String) : Option String × Option String :=
  let parsed := parse_src_tgt_from_report_desc desc
  if pyTruthyPair parsed then parsed else (some "", some "")

/-- Append the `_Src`/`_Tgt` columns (`pipeline.py:277-281`). -/
def addSrcTgtCols (f : Frame) : Frame :=
  { cols := f.cols ++ ["_Src", "_Tgt"]
    rows := f.rows.map fun r =>
      let st := srcTgtCell (getCellStr r "Description")
      r ++ [("_Src", st.1), ("_Tgt", st.2)] }

/-- One step of the PCyA column fix-up (`pipeline.py:315-325`): keep the
column if present; else rename a case-insensitive match (dict
comprehension keeps the LAST column per lower-cased name); else fail when
required or add an empty column. -/
def ensureCol (f : Frame) (col : String) (need : Bool) : Except String Frame :=
  if f.cols.contains col then Except.ok f
  else
    match f.cols.reverse.find? fun c => pyLowerS c = pyLowerS col with
    | some orig => Except.ok (if orig ≠ col then renameCol f orig col else f)
    | none =>
      if need then Except.error ("PCyA is missing required column: '" ++ col ++ "'")
      else Except.ok (addCol f col (some ""))

def ensurePcyaCols (f : Frame) (ridCol iecCol assetsCol : String) : Except String Frame :=
  (ensureCol f ridCol true).bind fun f1 =>
    (ensureCol f1 iecCol true).bind fun f2 => ensureCol f2 assetsCol false

/-- View of the ensured PCyA frame as loop rows. -/
def pcyaRowsOf (f : Frame) (ridCol iecCol assetsCol : String) : List PcyaRow :=
  f.rows.map fun r =>
    ⟨getCellStr r ridCol, getCellStr r iecCol, getCellStr r assetsCol⟩

/-- The per-threat iteration (`pipeline.py:303-312` and `337-441`): key
each threat, look up candidate rows by `_desc_key` equality, skip threats
with no candidates, process the rest in original threat order. -/
def buildRows (keyFn : String → Option String → Option String → String)
    (threats rules : Frame) (pcya : List PcyaRow) (target_sl : Nat)
    (allowed : List String) : List OutputRow :=
  threats.rows.enum.filterMap fun (i, trow) =>
    let desc := getCellStr trow "Description"
    let srcO := getCellOpt trow "_Src"
    let tgtO := getCellOpt trow "_Tgt"
    let dk := keyFn desc srcO tgtO
    let cands := rules.rows.filter fun rr => getCellStr rr "_desc_key" = dk
    if cands.isEmpty then none
    else
      some (processThreat pcya cands
        ⟨if trow.any fun kv => kv.1 = "Id" then getCellStr trow "Id" else toString i,
          getCellStr trow "Title", getCellStr trow "Description",
          getCellStr trow "Source", srcO, tgtO⟩
        target_sl allowed)

/-- `pipeline.run_pipeline` (`pipeline.py:226-295` plus the mapping loop;
the read-only `debug` diagnostics bundle is not modelled).  The
`ignoredKwargs` argument models `**_ignored`, which the function never
reads. -/
def run_pipeline (tmt_csv pcya_xlsx candidates_csv : Option Frame)
    (_iec_xlsx : Option Frame) (target_sl : Nat) (families : List String)
    (pcya_reqid_col pcya_iec_col pcya_assets_col : String)
    (_ignoredKwargs : List (String × String)) : Except String (List OutputRow) :=
  match tmt_csv, pcya_xlsx, candidates_csv with
  | some tmtF, some pcyaF, some candF =>
    (load_rules candF).bind fun rules =>
      (tmtNormalize tmtF).bind fun threats1 =>
        let threats2 := addSrcTgtCols threats1
        importDescKeyWithAssets.bind fun keyFn =>
          (ensurePcyaCols pcyaF pcya_reqid_col pcya_iec_col pcya_assets_col).map fun pcya2 =>
            buildRows keyFn threats2 rules
              (pcyaRowsOf pcya2 pcya_reqid_col pcya_iec_col pcya_assets_col)
              target_sl (families.map pyUpperS)
  | _, _, _ => Except.error "Missing required input(s)"

def exceptIsOk : Except ε α → Bool
  | Except.ok _ => true
  | Except.error _ => false

deriving instance DecidableEq for Except

-- Concrete control-flow checks.
example :
    run_pipeline (some ⟨["Description"], []⟩) (some ⟨[], []⟩)
      (some ⟨["Threat_Description"], []⟩) none 2 ["CR"] "Requirement ID" "TIS Source"
      "Assets Allocated to" [] =
    Except.error
      "ImportError: cannot import name '_desc_key_from_report_with_assets' from 'mapper.parsing'" := by
  decide
example :
    run_pipeline none (some ⟨[], []⟩) (some ⟨["Threat_Description"], []⟩) none 2 ["CR"]
      "Requirement ID" "TIS Source" "Assets Allocated to" [] =
    Except.error "Missing required input(s)" := by decide
example :
    run_pipeline (some ⟨["Description"], []⟩) (some ⟨[], []⟩) (some ⟨["Other"], []⟩) none 2
      ["CR"] "Requirement ID" "TIS Source" "Assets Allocated to" [] =
    Except.error "Candidates CSV must have a 'Threat_Description' column." := by decide

/-!
## Supporting lemmas
-/

lemma mem_matchedListOf {pcya : List PcyaRow} {req : List String}
    {rta ca : Finset String} {x : String} :
    x ∈ matchedListOf pcya req rta ca ↔
      (∃ iec ∈ req, x ∈ ridsForExactList pcya iec) ∧ gateForRid pcya rta ca x = true := by
  unfold matchedListOf
  rw [List.mem_flatMap]
  constructor
  · rintro ⟨iec, hiec, hx⟩
    rw [List.mem_filter] at hx
    exact ⟨⟨iec, hiec, hx.1⟩, hx.2⟩
  · rintro ⟨⟨iec, hiec, hx⟩, hg⟩
    exact ⟨iec, hiec, List.mem_filter.mpr ⟨hx, hg⟩⟩

lemma mem_traceableListOf {pcya : List PcyaRow} {req : List String} {x : String} :
    x ∈ traceableListOf pcya req ↔ ∃ iec ∈ req, x ∈ ridsForExactList pcya iec := by
  unfold traceableListOf
  exact List.mem_flatMap

lemma matchedOf_subset_traceableOf (pcya : List PcyaRow) (req : List String)
    (rta ca : Finset String) : matchedOf pcya req rta ca ⊆ traceableOf pcya req := by
  intro x hx
  rw [matchedOf, List.mem_toFinset, mem_matchedListOf] at hx
  rw [traceableOf, List.mem_toFinset, mem_traceableListOf]
  exact hx.1

/-- C2: in every run, the mapped requirement-ID set of a threat is a
subset of its traceable requirement-ID set, the per-row stray set
(mapped minus traceable) is empty, and the `StrayRIDs` field of every
output row produced by the loop body is the empty string. -/
theorem c2_mapped_subset_traceable :
    ∀ (pcya : List PcyaRow) (req : List String) (rta ca : Finset String),
      matchedOf pcya req rta ca ⊆ traceableOf pcya req
      ∧ strayOf pcya req rta ca = ∅
      ∧ ∀ (candRows : List FrameRow) (t : ThreatCtx) (sl : Nat) (fams : List String),
          (processThreat pcya candRows t sl fams).strayRIDs = "" := by
  intro pcya req rta ca
  refine ⟨matchedOf_subset_traceableOf pcya req rta ca, ?_, ?_⟩
  · rw [strayOf, Finset.sdiff_eq_empty_iff_subset]
    exact matchedOf_subset_traceableOf pcya req rta ca
  · intro candRows t sl fams
    show sortJoin (List.filter _ _) = ""
    have hnil :
        ∀ (req' : List String) (rta' ca' : Finset String),
          (matchedListOf pcya req' rta' ca').filter
            (fun rid => !(traceableListOf pcya req').contains rid) = [] := by
      intro req' rta' ca'
      rw [List.filter_eq_nil_iff]
      intro rid hrid
      have hmem : rid ∈ traceableListOf pcya req' := by
        rw [mem_traceableListOf]
        exact (mem_matchedListOf.mp hrid).1
      simpa using hmem
    rw [hnil]
    rfl

/-- C2 witness at concrete data. -/
theorem c2_witness :
    matchedOf [⟨"R1", "CR 1.1", "HMI"⟩] ["CR 1.1"] {"hmi"} ∅ ⊆
        traceableOf [⟨"R1", "CR 1.1", "HMI"⟩] ["CR 1.1"]
      ∧ strayOf [⟨"R1", "CR 1.1", "HMI"⟩] ["CR 1.1"] {"hmi"} ∅ = ∅ :=
  ⟨(c2_mapped_subset_traceable [⟨"R1", "CR 1.1", "HMI"⟩] ["CR 1.1"] {"hmi"} ∅).1,
   (c2_mapped_subset_traceable [⟨"R1", "CR 1.1", "HMI"⟩] ["CR 1.1"] {"hmi"} ∅).2.1⟩

/-- C7: the asset gate passes iff a non-empty resolved candidate
allocation is a subset of the requirement record's allocated assets AND
the required threat assets are not disjoint from the record's allocated
assets when both are non-empty; a traceable requirement ID enters the
mapped set iff it passes the gate. -/
theorem c7_asset_gate_iff :
    ∀ (ta pa ca : Finset String),
      (passes_asset_policy ta pa ca = true ↔
        ((ca ≠ ∅ → ca ⊆ pa) ∧ (ta ≠ ∅ → pa ≠ ∅ → ¬Disjoint ta pa)))
      ∧ ∀ (pcya : List PcyaRow) (req : List String) (rid : String),
          (rid ∈ matchedOf pcya req ta ca ↔
            rid ∈ traceableOf pcya req ∧ gateForRid pcya ta ca rid = true) := by
  intro ta pa ca
  constructor
  · unfold passes_asset_policy
    rw [Finset.disjoint_iff_inter_eq_empty]
    by_cases h1 : ta = ∅ <;> by_cases h2 : pa = ∅ <;>
      by_cases h3 : ta ∩ pa = ∅ <;> by_cases h4 : ca = ∅ <;>
        by_cases h5 : ca ⊆ pa <;> simp [h1, h2, h3, h4, h5]
  · intro pcya req rid
    rw [matchedOf, traceableOf, List.mem_toFinset, List.mem_toFinset,
      mem_matchedListOf, mem_traceableListOf]

/-- C7 witness at concrete data. -/
theorem c7_witness :
    (passes_asset_policy {"hmi"} {"hmi", "plc"} {"plc"} = true ↔
      (({"plc"} : Finset String) ≠ ∅ → ({"plc"} : Finset String) ⊆ {"hmi", "plc"}) ∧
        (({"hmi"} : Finset String) ≠ ∅ → ({"hmi", "plc"} : Finset String) ≠ ∅ →
          ¬Disjoint ({"hmi"} : Finset String) {"hmi", "plc"})) :=
  (c7_asset_gate_iff {"hmi"} {"hmi", "plc"} {"plc"}).1

/-- C1: the status written into an output row is exactly the
status-ladder function of the triple (traceable, mapped, required) used
by the loop, and on every triple the ladder yields exactly one of the
four statuses in the strict evaluation order `Mitigated` (mapped
non-empty), `Partially satisfied` (else traceable non-empty),
`Not mitigated` (else required non-empty), `Not applicable` (else). -/
theorem c1_status_ladder :
    (∀ (pcya : List PcyaRow) (candRows : List FrameRow) (t : ThreatCtx) (sl : Nat)
        (fams : List String),
      (processThreat pcya candRows t sl fams).status =
        statusOf
          (matchedOf pcya (requiredIecOf candRows sl fams)
            (required_assets_for_threat t.srcO t.tgtO (threatAssetsOf t.srcO t.tgtO)
              (candRows.headD []))
            (resolve_candidate_allocation (getCellStr (candRows.headD []) "PCyA allocated to")
              t.srcO t.tgtO))
          (traceableOf pcya (requiredIecOf candRows sl fams))
          (requiredIecOf candRows sl fams))
    ∧ ∀ (matched traceable : Finset String) (req : List String),
        (statusOf matched traceable req = "Mitigated" ↔ matched ≠ ∅)
        ∧ (statusOf matched traceable req = "Partially satisfied" ↔
            matched = ∅ ∧ traceable ≠ ∅)
        ∧ (statusOf matched traceable req = "Not mitigated" ↔
            matched = ∅ ∧ traceable = ∅ ∧ req ≠ [])
        ∧ (statusOf matched traceable req = "Not applicable" ↔
            matched = ∅ ∧ traceable = ∅ ∧ req = []) := by
  constructor
  · intro pcya candRows t sl fams
    rfl
  · intro matched traceable req
    unfold statusOf
    by_cases h1 : matched = ∅ <;> by_cases h2 : traceable = ∅ <;>
      by_cases h3 : req = [] <;> simp [h1, h2, h3]

lemma importBlocked (e1 e2 : Except String Frame)
    (k : Frame → Frame → (String → Option String → Option String → String) →
      Except String (List OutputRow)) :
    exceptIsOk (e1.bind fun a => e2.bind fun b => importDescKeyWithAssets.bind (k a b)) =
      false := by
  cases e1 with
  | error e => rfl
  | ok a =>
    cases e2 with
    | error e => rfl
    | ok b => rfl

/-- C3: with the three required inputs supplied (so the presence check at
`pipeline.py:249-251` passes), `run_pipeline` never returns a result: it
raises before producing any row, and as soon as rule loading and TMT
normalization succeed the error is precisely the `ImportError` for the
missing `parsing` attribute `_desc_key_from_report_with_assets`. -/
theorem c3_pipeline_always_raises :
    ∀ (t p c : Frame) (i : Option Frame) (sl : Nat) (fams : List String)
      (rc ic ac : String) (kw : List (String × String)),
      exceptIsOk (run_pipeline (some t) (some p) (some c) i sl fams rc ic ac kw) = false
      ∧ (∀ rules threats1, load_rules c = Except.ok rules →
          tmtNormalize t = Except.ok threats1 →
          run_pipeline (some t) (some p) (some c) i sl fams rc ic ac kw =
            Except.error
              "ImportError: cannot import name '_desc_key_from_report_with_assets' from 'mapper.parsing'") := by
  intro t p c i sl fams rc ic ac kw
  have hdef : run_pipeline (some t) (some p) (some c) i sl fams rc ic ac kw =
      (load_rules c).bind fun rules =>
        (tmtNormalize t).bind fun threats1 =>
          importDescKeyWithAssets.bind fun keyFn =>
            Except.map
              (fun pcya2 =>
                buildRows keyFn (addSrcTgtCols threats1) rules (pcyaRowsOf pcya2 rc ic ac)
                  sl (fams.map pyUpperS))
              (ensurePcyaCols p rc ic ac) := rfl
  constructor
  · rw [hdef]
    exact importBlocked (load_rules c) (tmtNormalize t) _
  · intro rules threats1 hr ht
    rw [hdef, hr, ht]
    rfl

/-- C3 witness: concrete frames that pass the presence check (and indeed
reach the failing import). -/
theorem c3_witness :
    exceptIsOk
        (run_pipeline (some ⟨["Description"], []⟩) (some ⟨[], []⟩)
          (some ⟨["Threat_Description"], []⟩) none 2 ["CR"] "Requirement ID"
          "TIS Source" "Assets Allocated to" []) = false
      ∧ run_pipeline (some ⟨["Description"], []⟩) (some ⟨[], []⟩)
          (some ⟨["Threat_Description"], []⟩) none 2 ["CR"] "Requirement ID"
          "TIS Source" "Assets Allocated to" [] =
        Except.error
          "ImportError: cannot import name '_desc_key_from_report_with_assets' from 'mapper.parsing'" :=
  ⟨(c3_pipeline_always_raises ⟨["Description"], []⟩ ⟨[], []⟩ ⟨["Threat_Description"], []⟩
      none 2 ["CR"] "Requirement ID" "TIS Source" "Assets Allocated to" []).1,
   (c3_pipeline_always_raises ⟨["Description"], []⟩ ⟨[], []⟩ ⟨["Threat_Description"], []⟩
      none 2 ["CR"] "Requirement ID" "TIS Source" "Assets Allocated to" []).2
     ⟨["Threat_Description", "_desc_key", "_title_key"], []⟩
     ⟨["Description", "Title", "Source"], []⟩ (by decide) (by decide)⟩

lemma mem_stableUniqAux {x : String} :
    ∀ (l seen : List String), x ∈ stableUniqAux seen l ↔ x ∈ l ∧ x ∉ seen := by
  intro l
  induction l with
  | nil => intro seen; simp [stableUniqAux]
  | cons a l ih =>
    intro seen
    unfold stableUniqAux
    by_cases ha : seen.contains a
    · rw [if_pos ha, ih]
      have haseen : a ∈ seen := List.elem_iff.mp ha
      simp only [List.mem_cons]
      constructor
      · rintro ⟨hx, hns⟩
        exact ⟨Or.inr hx, hns⟩
      · rintro ⟨hx | hx, hns⟩
        · exact absurd (hx ▸ haseen) hns
        · exact ⟨hx, hns⟩
    · rw [if_neg ha]
      have hans : a ∉ seen := fun h => ha (List.elem_iff.mpr h)
      simp only [List.mem_cons, ih]
      constructor
      · rintro (rfl | ⟨hx, hns⟩)
        · exact ⟨Or.inl rfl, hans⟩
        · exact ⟨Or.inr hx, fun h => hns (Or.inr h)⟩
      · rintro ⟨rfl | hx, hns⟩
        · exact Or.inl rfl
        · by_cases hxa : x = a
          · exact Or.inl hxa
          · exact Or.inr ⟨hx, fun hm => hm.elim hxa hns⟩

lemma mem_stableUniq {x : String} {l : List String} : x ∈ stableUniq l ↔ x ∈ l := by
  rw [stableUniq, mem_stableUniqAux]
  simp

/-- C5: for a fixed candidate row and family set, the token set produced
by cascade expansion at target level `n` (2 ≤ n ≤ 4) contains the token
set produced at level `n - 1`. -/
theorem c5_cascade_monotone :
    ∀ (row : FrameRow) (fams : List String) (n : Nat), 2 ≤ n → n ≤ 4 →
      ∀ x, x ∈ cascade_candidate_iec row (n - 1) fams →
        x ∈ cascade_candidate_iec row n fams := by
  intro row fams n h2 _ x hx
  unfold cascade_candidate_iec at hx ⊢
  rw [mem_stableUniq] at hx ⊢
  obtain ⟨m, rfl⟩ : ∃ m, n = m + 1 := ⟨n - 1, by omega⟩
  have hsplit : List.range' 1 (m + 1) = List.range' 1 m ++ [1 + 1 * m] :=
    List.range'_concat 1 m
  rw [hsplit, List.flatMap_append]
  rw [Nat.add_sub_cancel] at hx
  exact List.mem_append_left _ hx

/-- C5 witness: a concrete rule row where the level-1 token persists at
level 2. -/
theorem c5_witness :
    2 ≤ 2 ∧ 2 ≤ 4 ∧
      "CR 1.1" ∈ cascade_candidate_iec [("SL1", some "CR 1.1")] 1 ["CR"] ∧
      "CR 1.1" ∈ cascade_candidate_iec [("SL1", some "CR 1.1")] 2 ["CR"] :=
  ⟨by decide, by decide, by decide,
   c5_cascade_monotone [("SL1", some "CR 1.1")] ["CR"] 2 (by decide) (by decide)
     "CR 1.1" (by decide)⟩

/-- C4 counterexample: `run_pipeline` exposes no expansion-mode
parameter — a `mode="exact"` keyword falls into `**_ignored` and changes
nothing — and the pipeline's per-threat required-token computation always
cascades: at target level 2 it includes the SL1-only token `CR 1.1`,
which is not among the SL2 cell's tokens, contradicting the claim that
under mode `exact` only SL-N tokens are included. -/
theorem c4_counterexample :
    requiredIecOf [[("SL1", some "CR 1.1"), ("SL2", some "CR 2.1")]] 2
        ["CR", "SAR", "EDR", "HDR", "NDR"] = ["CR 1.1", "CR 2.1"]
      ∧ "CR 1.1" ∉ slTokens [("SL1", some "CR 1.1"), ("SL2", some "CR 2.1")] 2
          ["CR", "SAR", "EDR", "HDR", "NDR"]
      ∧ collect_candidate_iec [("SL1", some "CR 1.1"), ("SL2", some "CR 2.1")] 2
          ["CR", "SAR", "EDR", "HDR", "NDR"] "exact" = ["CR 2.1"]
      ∧ run_pipeline (some ⟨["Description"], []⟩) (some ⟨[], []⟩)
          (some ⟨["Threat_Description"], []⟩) none 2 ["CR"] "Requirement ID" "TIS Source"
          "Assets Allocated to" [("mode", "exact")] =
        run_pipeline (some ⟨["Description"], []⟩) (some ⟨[], []⟩)
          (some ⟨["Threat_Description"], []⟩) none 2 ["CR"] "Requirement ID" "TIS Source"
          "Assets Allocated to" [("mode", "cascade")] := by
  refine ⟨by decide, by decide, by decide, rfl⟩

/-- C4 amended: the helper `_collect_candidate_iec` does support the two
modes — `exact` at level N keeps exactly the SL-N cell's (deduplicated)
tokens and `cascade` coincides with `_cascade_candidate_iec` — but
`run_pipeline` itself has no expansion-mode parameter and always uses
cascade expansion for the required-token set. -/
theorem c4_amended_modes :
    ∀ (row : FrameRow) (fams : List String) (n : Nat),
      collect_candidate_iec row n fams "exact" = stableUniq (slTokens row n fams)
      ∧ collect_candidate_iec row n fams "cascade" = cascade_candidate_iec row n fams
      ∧ ∀ candRows : List FrameRow,
          requiredIecOf candRows n fams =
            stableUniq (candRows.flatMap fun r => cascade_candidate_iec r n fams) := by
  intro row fams n
  refine ⟨?_, ?_, fun _ => rfl⟩
  · unfold collect_candidate_iec
    rw [if_neg (by decide)]
    simp
  · unfold collect_candidate_iec cascade_candidate_iec
    rw [if_pos rfl]

/-- C4 amended witness: concrete evaluation of both modes. -/
theorem c4_amended_witness :
    collect_candidate_iec [("SL1", some "CR 1.1"), ("SL2", some "CR 2.1")] 2 ["CR"]
        "exact" =
      stableUniq (slTokens [("SL1", some "CR 1.1"), ("SL2", some "CR 2.1")] 2 ["CR"]) :=
  (c4_amended_modes [("SL1", some "CR 1.1"), ("SL2", some "CR 2.1")] ["CR"] 2).1

/-- C6: extraction canonicalizes identifier spellings — `"CR 3.1"`,
`"cr-3.1"` and `"CR3.1"` all extract to exactly the single token
`"CR 3.1"`; `"HDR 2 RE(1)"` and `"hdr2 re (1)"` both extract to exactly
`"HDR 2 RE(1)"`; and a token built with an `RE(n)` enhancement is never
equal to the token built without it. -/
theorem c6_canonical_tokens :
    extract_all_iec_ids "CR 3.1" = ["CR 3.1"]
      ∧ extract_all_iec_ids "cr-3.1" = ["CR 3.1"]
      ∧ extract_all_iec_ids "CR3.1" = ["CR 3.1"]
      ∧ extract_all_iec_ids "HDR 2 RE(1)" = ["HDR 2 RE(1)"]
      ∧ extract_all_iec_ids "hdr2 re (1)" = ["HDR 2 RE(1)"]
      ∧ (("HDR 2 RE(1)" : String) == "HDR 2") = false
      ∧ ∀ (famTxt num ren : List Char),
          (mkIecTok famTxt num (some ren) == mkIecTok famTxt num none) = false := by
  refine ⟨by decide, by decide, by decide, by decide, by decide, by decide, ?_⟩
  intro famTxt num ren
  rw [beq_eq_false_iff_ne]
  intro h
  have hlen := congrArg List.length h
  simp [mkIecTok] at hlen

/-- C9 evaluation at the failing input: a description without the
`"<Source> to <Target>: …"` shape parses to `(None, None)`; the
`or ("", "")` default at `pipeline.py:278` is dead because a two-element
tuple is always truthy, so the row's `_Src`/`_Tgt` cells — and hence the
`Src`/`Tgt` output fields — are Python `None`, not the empty string,
while the row is still processed into an output row. -/
theorem c9_none_not_empty :
    parse_src_tgt_from_report_desc "An attacker may deny actions" = (none, none)
      ∧ srcTgtCell "An attacker may deny actions" = (none, none)
      ∧ (addSrcTgtCols ⟨["Description"], [[("Description", some "An attacker may deny actions")]]⟩).rows =
          [[("Description", some "An attacker may deny actions"), ("_Src", none), ("_Tgt", none)]]
      ∧ (processThreat [] [[("Threat_Description", some "x")]]
          ⟨"0", "t", "An attacker may deny actions", "", none, none⟩ 2 ["CR"]).src = none
      ∧ (processThreat [] [[("Threat_Description", some "x")]]
          ⟨"0", "t", "An attacker may deny actions", "", none, none⟩ 2 ["CR"]).status =
        "Not applicable" := by
  refine ⟨by decide, by decide, by decide, by decide, by decide⟩

lemma find?_setRow_mem : ∀ (r : FrameRow) (col : String) (v : Cell),
    (r.any fun kv => kv.1 = col) = true →
    List.find? (fun kv => kv.1 = col)
        (r.map fun kv => if kv.1 = col then (col, v) else kv) = some (col, v) := by
  intro r col v h
  induction r with
  | nil => simp at h
  | cons kv r ih =>
    by_cases hk : kv.1 = col
    · simp [List.find?_cons, hk]
    · have h2 : (r.any fun kv => kv.1 = col) = true := by
        rw [List.any_cons] at h
        simpa [hk] using h
      simp [List.find?_cons, hk, ih h2]

lemma find?_setRow_append : ∀ (r : FrameRow) (col : String) (v : Cell),
    (r.any fun kv => kv.1 = col) = false →
    List.find? (fun kv => kv.1 = col) (r ++ [(col, v)]) = some (col, v) := by
  intro r col v h
  induction r with
  | nil => simp [List.find?]
  | cons kv r ih =>
    simp only [List.any_cons, Bool.or_eq_false_iff] at h
    obtain ⟨h1, h2⟩ := h
    have hk : ¬kv.1 = col := by simpa using h1
    simp [List.find?_cons, hk, ih h2]

lemma getCellOpt_setCellRow (r : FrameRow) (col : String) (v : Cell) :
    getCellOpt (setCellRow r col v) col = v := by
  unfold setCellRow getCellOpt
  by_cases h : (r.any fun kv => kv.1 = col) = true
  · rw [if_pos h, find?_setRow_mem r col v h]
  · have hfalse : (r.any fun kv => kv.1 = col) = false := by
      revert h
      cases r.any fun kv => kv.1 = col <;> simp
    rw [if_neg h, find?_setRow_append r col v hfalse]

/-- C10: loading the rule table fails — with a schema error whose message
names the description column — exactly when `Threat_Description` is
absent; and when it is present but the optional `Threat_ShortTitle` is
absent, loading succeeds and every row's derived `_title_key` is the
empty string. -/
theorem c10_load_rules_schema :
    ∀ f : Frame,
      (exceptIsOk (load_rules f) = true ↔ f.cols.contains "Threat_Description" = true)
      ∧ (f.cols.contains "Threat_Description" = false →
          load_rules f =
              Except.error "Candidates CSV must have a 'Threat_Description' column."
            ∧ containsSub "Candidates CSV must have a 'Threat_Description' column."
                "Threat_Description" = true)
      ∧ (f.cols.contains "Threat_Description" = true →
          f.cols.contains "Threat_ShortTitle" = false →
          ∃ rules, load_rules f = Except.ok rules ∧
            ∀ r ∈ rules.rows, getCellOpt r "_title_key" = some "") := by
  intro f
  refine ⟨?_, ?_, ?_⟩
  · unfold load_rules
    by_cases hd : f.cols.contains "Threat_Description" = true
    · rw [if_pos hd]
      exact ⟨fun _ => hd, fun _ => rfl⟩
    · rw [if_neg hd]
      exact ⟨fun hfalse => absurd hfalse Bool.false_ne_true, fun hc => absurd hc hd⟩
  · intro hd
    unfold load_rules
    rw [if_neg (by rw [hd]; exact Bool.false_ne_true)]
    exact ⟨rfl, by decide⟩
  · intro hd hst
    unfold load_rules
    rw [if_pos hd]
    refine ⟨_, rfl, ?_⟩
    intro r hr
    simp only [frameSetCol, List.mem_map] at hr
    obtain ⟨r1, _, hset⟩ := hr
    rw [← hset, hst]
    exact getCellOpt_setCellRow r1 "_title_key" (some "")

/-- C10 witness: a concrete frame with `Threat_Description` but no
`Threat_ShortTitle`. -/
theorem c10_witness :
    (exceptIsOk (load_rules ⟨["Threat_Description"], [[("Threat_Description", some "d")]]⟩) =
        true ↔
      (["Threat_Description"].contains "Threat_Description") = true)
      ∧ ∃ rules,
          load_rules ⟨["Threat_Description"], [[("Threat_Description", some "d")]]⟩ =
              Except.ok rules
            ∧ ∀ r ∈ rules.rows, getCellOpt r "_title_key" = some "" :=
  ⟨(c10_load_rules_schema ⟨["Threat_Description"], [[("Threat_Description", some "d")]]⟩).1,
   (c10_load_rules_schema ⟨["Threat_Description"], [[("Threat_Description", some "d")]]⟩).2.2
     (by decide) (by decide)⟩

/-!
## Normalization idempotence machinery (claim C8)

The output of `_normalize_text` is a `" "`-join of non-empty words made
of `[a-z0-9]` characters; each stage of the transform fixes strings of
that shape.
-/

def goodWords (ws : List (List Char)) : Prop :=
  ∀ w ∈ ws, w ≠ [] ∧ ∀ c ∈ w, isAlnumLowerC c = true

lemma pyLowerC_fix {c : Char} (h : isAlnumLowerC c = true ∨ c = ' ') : pyLowerC c = c := by
  rcases h with h | rfl
  · unfold pyLowerC
    unfold isAlnumLowerC at h
    rw [if_neg]
    simp only [Bool.or_eq_true, Bool.and_eq_true, decide_eq_true_eq] at h
    simp only [Bool.and_eq_true, decide_eq_true_eq, not_and]
    omega
  · decide

lemma notSpace_of_alnum {c : Char} (h : isAlnumLowerC c = true) : isSpaceC c = false := by
  unfold isAlnumLowerC at h
  unfold isSpaceC
  simp only [Bool.or_eq_true, Bool.and_eq_true, decide_eq_true_eq] at h
  simp only [Bool.or_eq_false_iff, decide_eq_false_iff_not, Bool.and_eq_false_iff]
  omega

lemma mapFixes (f : Char → Char) : ∀ w : List Char, (∀ c ∈ w, f c = c) → w.map f = w := by
  intro w
  induction w with
  | nil => intro _; rfl
  | cons a as ih =>
    intro h
    simp only [List.map_cons]
    rw [h a (List.mem_cons_self a as), ih fun c hc => h c (List.mem_cons_of_mem a hc)]

lemma mem_joinWords {c : Char} :
    ∀ ws : List (List Char), c ∈ joinWords ws → (∃ w ∈ ws, c ∈ w) ∨ c = ' ' := by
  intro ws
  induction ws with
  | nil => intro h; simp [joinWords] at h
  | cons w ws ih =>
    intro h
    cases ws with
    | nil =>
      simp only [joinWords] at h
      exact Or.inl ⟨w, List.mem_cons_self w [], h⟩
    | cons w2 ws2 =>
      simp only [joinWords, List.mem_append, List.mem_cons] at h
      rcases h with h | h | h
      · exact Or.inl ⟨w, List.mem_cons_self _ _, h⟩
      · exact Or.inr h
      · rcases ih h with ⟨w', hw', hc⟩ | h2
        · exact Or.inl ⟨w', List.mem_cons_of_mem w hw', hc⟩
        · exact Or.inr h2

lemma joinWords_chars {c : Char} {ws : List (List Char)} (hg : goodWords ws)
    (h : c ∈ joinWords ws) : isAlnumLowerC c = true ∨ c = ' ' := by
  rcases mem_joinWords ws h with ⟨w, hw, hc⟩ | h
  · exact Or.inl ((hg w hw).2 c hc)
  · exact Or.inr h

lemma lower_joinWords {ws : List (List Char)} (hg : goodWords ws) :
    pyLowerL (joinWords ws) = joinWords ws :=
  mapFixes pyLowerC (joinWords ws) fun c hc => pyLowerC_fix (joinWords_chars hg hc)

lemma dropWhile_id_of_head? {p : Char → Bool} {l : List Char}
    (h : ∀ c, l.head? = some c → p c = false) : l.dropWhile p = l := by
  cases l with
  | nil => rfl
  | cons a as =>
    rw [List.dropWhile_cons, if_neg]
    simp [h a rfl]

lemma joinWords_ne_nil {ws : List (List Char)} (hg : goodWords ws) (hne : ws ≠ []) :
    joinWords ws ≠ [] := by
  cases ws with
  | nil => exact absurd rfl hne
  | cons w ws2 =>
    have hw := (hg w (List.mem_cons_self _ _)).1
    cases ws2 with
    | nil => simpa [joinWords] using hw
    | cons w2 ws3 =>
      simp only [joinWords]
      intro hcontra
      rcases List.append_eq_nil.mp hcontra with ⟨_, h2⟩
      exact List.cons_ne_nil _ _ h2

lemma joinWords_head?_alnum {ws : List (List Char)} (hg : goodWords ws) :
    ∀ c, (joinWords ws).head? = some c → isAlnumLowerC c = true := by
  intro c hc
  cases ws with
  | nil => simp [joinWords] at hc
  | cons w ws2 =>
    obtain ⟨hne, halnum⟩ := hg w (List.mem_cons_self _ _)
    cases w with
    | nil => exact absurd rfl hne
    | cons a as =>
      have : c = a := by
        cases ws2 <;> simp only [joinWords, List.cons_append, List.head?_cons] at hc <;>
          exact (Option.some.inj hc).symm
      exact this ▸ halnum a (List.mem_cons_self _ _)

lemma joinWords_getLast?_alnum {ws : List (List Char)} (hg : goodWords ws) :
    ∀ c, (joinWords ws).getLast? = some c → isAlnumLowerC c = true := by
  induction ws with
  | nil => intro c hc; simp [joinWords] at hc
  | cons w ws2 ih =>
    intro c hc
    obtain ⟨hne, halnum⟩ := hg w (List.mem_cons_self _ _)
    have hg2 : goodWords ws2 := fun u hu => hg u (List.mem_cons_of_mem _ hu)
    cases ws2 with
    | nil =>
      simp only [joinWords] at hc
      exact halnum c (List.mem_of_mem_getLast? hc)
    | cons w2 ws3 =>
      simp only [joinWords] at hc
      have hjne : joinWords (w2 :: ws3) ≠ [] := joinWords_ne_nil hg2 (List.cons_ne_nil _ _)
      rw [List.getLast?_append_of_ne_nil w (List.cons_ne_nil _ _)] at hc
      rw [List.getLast?_cons] at hc
      have hg' : (joinWords (w2 :: ws3)).getLast? =
          some ((joinWords (w2 :: ws3)).getLast hjne) := List.getLast?_eq_getLast _ hjne
      rw [hg'] at hc
      simp only [Option.getD_some] at hc
      exact ih hg2 c (by rw [hg', hc])

lemma strip_joinWords {ws : List (List Char)} (hg : goodWords ws) :
    pyStripL (joinWords ws) = joinWords ws := by
  unfold pyStripL
  rw [dropWhile_id_of_head? fun c hc => notSpace_of_alnum (joinWords_head?_alnum hg c hc)]
  rw [dropWhile_id_of_head? fun c hc =>
    notSpace_of_alnum
      (joinWords_getLast?_alnum hg c (by rwa [← List.head?_reverse]))]
  exact List.reverse_reverse _

lemma cleanSubAux_alnum_append {w : List Char} (hw : ∀ c ∈ w, isAlnumLowerC c = true) :
    ∀ rest : List Char, cleanSubAux false (w ++ rest) = w ++ cleanSubAux false rest := by
  induction w with
  | nil => intro rest; rfl
  | cons a as ih =>
    intro rest
    have ha := hw a (List.mem_cons_self _ _)
    have hcons : ∀ (b : Bool) (l : List Char),
        cleanSubAux b (a :: l) = a :: cleanSubAux false l := by
      intro b l
      rw [cleanSubAux, if_pos ha]
    simp only [List.cons_append, hcons]
    rw [ih (fun c hc => hw c (List.mem_cons_of_mem _ hc)) rest]

lemma cleanSubAux_true_of_alnum_head {l : List Char}
    (h : ∀ c, l.head? = some c → isAlnumLowerC c = true) :
    cleanSubAux true l = cleanSubAux false l := by
  cases l with
  | nil => rfl
  | cons a as =>
    unfold cleanSubAux
    rw [if_pos (h a rfl), if_pos (h a rfl)]

lemma clean_joinWords {ws : List (List Char)} (hg : goodWords ws) :
    cleanSub (joinWords ws) = joinWords ws := by
  induction ws with
  | nil => rfl
  | cons w ws2 ih =>
    obtain ⟨hne, halnum⟩ := hg w (List.mem_cons_self _ _)
    have hg2 : goodWords ws2 := fun u hu => hg u (List.mem_cons_of_mem _ hu)
    cases ws2 with
    | nil =>
      show cleanSubAux false (joinWords [w]) = joinWords [w]
      simp only [joinWords]
      have h0 : cleanSubAux false ([] : List Char) = [] := rfl
      have htot := cleanSubAux_alnum_append halnum []
      rw [h0, List.append_nil] at htot
      exact htot

    | cons w2 ws3 =>
      show cleanSubAux false (joinWords (w :: w2 :: ws3)) = joinWords (w :: w2 :: ws3)
      simp only [joinWords]
      rw [cleanSubAux_alnum_append halnum]
      unfold cleanSubAux
      rw [if_neg (by decide), if_neg (by decide)]
      rw [cleanSubAux_true_of_alnum_head (joinWords_head?_alnum hg2)]
      rw [show cleanSubAux false (joinWords (w2 :: ws3)) = joinWords (w2 :: ws3) from ih hg2]

lemma splitWsAux_alnum_append {w : List Char} (hw : ∀ c ∈ w, isAlnumLowerC c = true) :
    ∀ (acc rest : List Char),
      splitWsAux acc (w ++ rest) = splitWsAux (w.reverse ++ acc) rest := by
  induction w with
  | nil => intro acc rest; rfl
  | cons a as ih =>
    intro acc rest
    have ha := hw a (List.mem_cons_self _ _)
    simp only [List.cons_append]
    rw [splitWsAux, if_neg (by simp [notSpace_of_alnum ha])]
    rw [ih (fun c hc => hw c (List.mem_cons_of_mem _ hc)) (a :: acc) rest]
    rw [List.reverse_cons, List.append_assoc]
    rfl

lemma split_joinWords {ws : List (List Char)} (hg : goodWords ws) :
    splitWs (joinWords ws) = ws := by
  induction ws with
  | nil => rfl
  | cons w ws2 ih =>
    obtain ⟨hne, halnum⟩ := hg w (List.mem_cons_self _ _)
    have hg2 : goodWords ws2 := fun u hu => hg u (List.mem_cons_of_mem _ hu)
    have hwrev : w.reverse ≠ [] := fun h => hne (by simpa using congrArg List.reverse h)
    cases ws2 with
    | nil =>
      show splitWsAux [] (joinWords [w]) = [w]
      simp only [joinWords]
      have h1 := splitWsAux_alnum_append halnum [] []
      simp only [List.append_nil] at h1
      rw [h1]
      unfold splitWsAux
      rw [if_neg (by simpa using hwrev)]
      rw [List.reverse_reverse]
    | cons w2 ws3 =>
      show splitWsAux [] (joinWords (w :: w2 :: ws3)) = w :: w2 :: ws3
      simp only [joinWords]
      rw [splitWsAux_alnum_append halnum]
      rw [List.append_nil]
      rw [splitWsAux, if_pos (by decide)]
      rw [if_neg (by simpa using hwrev)]
      rw [List.reverse_reverse]
      have hrec := ih hg2
      unfold splitWs at hrec
      rw [hrec]

lemma cleanSubAux_chars {c : Char} :
    ∀ (l : List Char) (b : Bool), c ∈ cleanSubAux b l →
      isAlnumLowerC c = true ∨ c = ' ' := by
  intro l
  induction l with
  | nil => intro b h; simp [cleanSubAux] at h
  | cons a as ih =>
    intro b h
    rw [cleanSubAux] at h
    by_cases ha : isAlnumLowerC a = true
    · rw [if_pos ha] at h
      rcases List.mem_cons.mp h with rfl | h2
      · exact Or.inl ha
      · exact ih false h2
    · rw [if_neg ha] at h
      cases b with
      | true => exact ih true h
      | false =>
        rcases List.mem_cons.mp h with rfl | h2
        · exact Or.inr rfl
        · exact ih true h2

lemma splitWsAux_goodWords :
    ∀ (l acc : List Char), (∀ c ∈ acc, isAlnumLowerC c = true) →
      (∀ c ∈ l, isAlnumLowerC c = true ∨ c = ' ') →
      ∀ w ∈ splitWsAux acc l, w ≠ [] ∧ ∀ c ∈ w, isAlnumLowerC c = true := by
  intro l
  induction l with
  | nil =>
    intro acc hacc _ w hw
    rw [splitWsAux] at hw
    by_cases hemp : acc.isEmpty
    · rw [if_pos hemp] at hw
      simp at hw
    · rw [if_neg hemp] at hw
      rcases List.mem_singleton.mp hw with rfl
      refine ⟨fun h => hemp ?_, fun c hc => hacc c (by simpa using hc)⟩
      have : acc = [] := by simpa using congrArg List.reverse h
      simp [this]
  | cons a as ih =>
    intro acc hacc hl w hw
    have ha := hl a (List.mem_cons_self _ _)
    have has : ∀ c ∈ as, isAlnumLowerC c = true ∨ c = ' ' :=
      fun c hc => hl c (List.mem_cons_of_mem _ hc)
    rw [splitWsAux] at hw
    by_cases hsp : isSpaceC a = true
    · rw [if_pos hsp] at hw
      by_cases hemp : acc.isEmpty
      · rw [if_pos hemp] at hw
        exact ih [] (by simp) has w hw
      · rw [if_neg hemp] at hw
        rcases List.mem_cons.mp hw with rfl | h2
        · refine ⟨fun h => hemp ?_, fun c hc => hacc c (by simpa using hc)⟩
          have : acc = [] := by simpa using congrArg List.reverse h
          simp [this]
        · exact ih [] (by simp) has w h2
    · rw [if_neg hsp] at hw
      have haal : isAlnumLowerC a = true := by
        rcases ha with h | rfl
        · exact h
        · exact absurd (by decide : isSpaceC ' ' = true) hsp
      refine ih (a :: acc) ?_ has w hw
      intro c hc
      rcases List.mem_cons.mp hc with rfl | h2
      · exact haal
      · exact hacc c h2

lemma goodWords_splitWs_cleanSub (x : List Char) : goodWords (splitWs (cleanSub x)) := by
  intro w hw
  exact splitWsAux_goodWords (cleanSub x) [] (by simp)
    (fun c hc => cleanSubAux_chars x false hc) w hw

lemma normalizeTextL_joinWords {ws : List (List Char)} (hg : goodWords ws) :
    normalizeTextL (joinWords ws) = joinWords ws := by
  unfold normalizeTextL
  rw [show pyLowerL (joinWords ws) = joinWords ws from lower_joinWords hg,
    strip_joinWords hg, clean_joinWords hg, split_joinWords hg]

lemma normalizeTextL_idem (l : List Char) :
    normalizeTextL (normalizeTextL l) = normalizeTextL l :=
  normalizeTextL_joinWords (goodWords_splitWs_cleanSub (pyStripL (pyLowerL l)))

lemma colon_not_mem_normalizeTextL (l : List Char) : ':' ∉ normalizeTextL l := by
  intro h
  rcases joinWords_chars (goodWords_splitWs_cleanSub (pyStripL (pyLowerL l))) h with
    halnum | hsp
  · exact absurd halnum (by decide)
  · exact absurd hsp (by decide)

lemma firstSome_some {l : List α} {f : α → Option β} {b : β}
    (h : firstSome l f = some b) : ∃ a ∈ l, f a = some b := by
  induction l with
  | nil => simp [firstSome] at h
  | cons a as ih =>
    rw [firstSome] at h
    cases hfa : f a with
    | some b2 =>
      rw [hfa] at h
      exact ⟨a, List.mem_cons_self _ _, hfa.trans h⟩
    | none =>
      rw [hfa] at h
      obtain ⟨a2, ha2, hfa2⟩ := ih h
      exact ⟨a2, List.mem_cons_of_mem _ ha2, hfa2⟩

lemma runPosAux_rest_sub {p : Char → Bool} :
    ∀ (l : List Char) (prev : Option Char) (pos' : RxPos),
      pos' ∈ runPosAux p prev l → ∀ c ∈ pos'.rest, c ∈ l := by
  intro l
  induction l with
  | nil =>
    intro prev pos' h c hc
    rw [runPosAux] at h
    rcases List.mem_singleton.mp h with rfl
    simp at hc
  | cons a as ih =>
    intro prev pos' h c hc
    rw [runPosAux] at h
    rcases List.mem_cons.mp h with rfl | h2
    · exact hc
    · by_cases hpa : p a
      · rw [if_pos hpa] at h2
        exact List.mem_cons_of_mem _ (ih (some a) pos' h2 c hc)
      · rw [if_neg hpa] at h2
        simp at h2

lemma starG_rest_sub {p : Char → Bool} {pos pos' : RxPos} (h : pos' ∈ starG p pos) :
    ∀ c ∈ pos'.rest, c ∈ pos.rest :=
  runPosAux_rest_sub pos.rest pos.prev pos' (List.mem_reverse.mp h)

lemma plusG_rest_sub {p : Char → Bool} {pos pos' : RxPos} (h : pos' ∈ plusG p pos) :
    ∀ c ∈ pos'.rest, c ∈ pos.rest :=
  runPosAux_rest_sub pos.rest pos.prev pos'
    (List.mem_of_mem_drop (List.mem_reverse.mp h))

lemma plusL_rest_sub {p : Char → Bool} {pos pos' : RxPos} (h : pos' ∈ plusL p pos) :
    ∀ c ∈ pos'.rest, c ∈ pos.rest :=
  runPosAux_rest_sub pos.rest pos.prev pos' (List.mem_of_mem_drop h)

lemma litCI_rest_sub :
    ∀ (lit : List Char) (pos pos' : RxPos), litCI lit pos = some pos' →
      ∀ c ∈ pos'.rest, c ∈ pos.rest := by
  intro lit
  induction lit with
  | nil =>
    intro pos pos' h c hc
    rw [litCI] at h
    obtain rfl := Option.some.inj h
    exact hc
  | cons x xs ih =>
    intro pos pos' h c hc
    obtain ⟨prev, rest⟩ := pos
    cases rest with
    | nil => simp [litCI] at h
    | cons d ds =>
      simp only [litCI] at h
      by_cases hd : pyLowerC d = pyLowerC x
      · rw [if_pos hd] at h
        exact List.mem_cons_of_mem _ (ih ⟨some d, ds⟩ pos' h c hc)
      · rw [if_neg hd] at h
        simp at h

lemma chCl_head {p : Char → Bool} {pos pos' : RxPos} (h : chCl p pos = some pos') :
    ∃ d ∈ pos.rest, p d = true := by
  obtain ⟨prev, rest⟩ := pos
  cases rest with
  | nil => simp [chCl] at h
  | cons d ds =>
    simp only [chCl] at h
    by_cases hd : p d
    · exact ⟨d, List.mem_cons_self _ _, hd⟩
    · rw [if_neg hd] at h
      simp at h

lemma repPrefixCore_colon {l r : List Char} (h : repPrefixCore l = some r) : ':' ∈ l := by
  unfold repPrefixCore at h
  obtain ⟨p1, hp1, h⟩ := firstSome_some h
  obtain ⟨p2, hp2, h⟩ := firstSome_some h
  obtain ⟨p3, hp3, h⟩ := firstSome_some h
  rw [Option.bind_eq_some] at h
  obtain ⟨p4, hp4, h⟩ := h
  obtain ⟨p5, hp5, h⟩ := firstSome_some h
  obtain ⟨p6, hp6, h⟩ := firstSome_some h
  obtain ⟨p7, hp7, h⟩ := firstSome_some h
  rw [Option.bind_eq_some] at h
  obtain ⟨p8, hp8, _⟩ := h
  obtain ⟨d, hd, hcolon⟩ := chCl_head hp8
  have hdc : d = ':' := by simpa using hcolon
  subst hdc
  exact starG_rest_sub hp1 ':'
    (plusL_rest_sub hp2 ':'
      (plusG_rest_sub hp3 ':'
        (litCI_rest_sub _ _ _ hp4 ':'
          (plusG_rest_sub hp5 ':'
            (plusL_rest_sub hp6 ':' (starG_rest_sub hp7 ':' hd))))))

lemma repPrefixCore_none_of_no_colon {l : List Char} (h : ':' ∉ l) :
    repPrefixCore l = none := by
  cases hrep : repPrefixCore l with
  | none => rfl
  | some r => exact absurd (repPrefixCore_colon hrep) h

/-- C8: text normalization is idempotent, and so is the full
report-description key derivation (prefix strip then normalize) applied
to an already-derived key. -/
theorem c8_normalization_idempotent :
    ∀ s : String,
      normalize_text (normalize_text s) = normalize_text s
      ∧ desc_key_from_report (desc_key_from_report s) = desc_key_from_report s := by
  intro s
  constructor
  · exact congrArg String.mk (normalizeTextL_idem s.data)
  · set t := (repPrefixCore s.data).getD s.data with ht
    have hdata : (normalize_text ⟨t⟩).data = normalizeTextL t := rfl
    show normalize_text
        ⟨(repPrefixCore (normalize_text ⟨t⟩).data).getD (normalize_text ⟨t⟩).data⟩ =
      normalize_text ⟨t⟩
    rw [hdata, repPrefixCore_none_of_no_colon (colon_not_mem_normalizeTextL t)]
    exact congrArg String.mk (normalizeTextL_idem t)

/-- C1 witness: the ladder evaluated on a concrete triple. -/
theorem c1_witness :
    statusOf {"R1"} {"R1"} ["CR 1.1"] = "Mitigated"
      ∧ statusOf ∅ {"R1"} ["CR 1.1"] = "Partially satisfied"
      ∧ statusOf ∅ ∅ ["CR 1.1"] = "Not mitigated"
      ∧ statusOf ∅ ∅ [] = "Not applicable" :=
  ⟨(c1_status_ladder.2 {"R1"} {"R1"} ["CR 1.1"]).1.mpr (by decide),
   (c1_status_ladder.2 ∅ {"R1"} ["CR 1.1"]).2.1.mpr ⟨rfl, by decide⟩,
   (c1_status_ladder.2 ∅ ∅ ["CR 1.1"]).2.2.1.mpr ⟨rfl, rfl, by decide⟩,
   (c1_status_ladder.2 ∅ ∅ []).2.2.2.mpr ⟨rfl, rfl, rfl⟩⟩

/-- C6 witness: the enhancement/base inequality at concrete token parts. -/
theorem c6_witness :
    (mkIecTok ['C', 'R'] ['1'] (some ['2']) == mkIecTok ['C', 'R'] ['1'] none) = false :=
  c6_canonical_tokens.2.2.2.2.2.2 ['C', 'R'] ['1'] ['2']

/-- C8 witness: idempotence evaluated at a concrete string. -/
theorem c8_witness :
    normalize_text (normalize_text "  PLC to HMI: Spoofing!! ") =
        normalize_text "  PLC to HMI: Spoofing!! "
      ∧ desc_key_from_report (desc_key_from_report "  PLC to HMI: Spoofing!! ") =
        desc_key_from_report "  PLC to HMI: Spoofing!! " :=
  c8_normalization_idempotent "  PLC to HMI: Spoofing!! "
